import Mathlib

/-!
Verification development for the libopenshot video-stabilization pipeline
(`src/CVStabilization.cpp` and `src/effects/Stabilizer.cpp`).

Modelling conventions:
* C++ `double`/`float` values are modelled as exact rationals (`ℚ`); the
  arithmetic identities of the pipeline are algebraic and do not depend on
  rounding.  Where single-precision truncation happens on save (`float x = ...`),
  the conversion is modelled as the identity on `ℚ`.
* `std::map<size_t, T>` is modelled as a key-sorted association list
  `List (Nat × T)` with `mapSet` (insert-or-assign, as done by `m[k] = v`),
  `mapGet?` (lookup) and `mapGetD` (lookup with the default-constructed value,
  as produced by a read through `operator[]` of a missing key).
* OpenCV image buffers, feature detection, optical flow,
  `estimateRigidTransform`, `warpAffine` and the protobuf wire format are
  external collaborators; they enter the embedding only through their results
  (an optional estimated 2x3 matrix, an optional parsed record list, the
  transform parameters loaded into the affine matrix).
-/

/-- Per-frame rigid-motion parameters (`struct TransformParam`: fields
`dx`, `dy`, `da`).  The defining header `CVStabilization.h` is not part of
`src/`; the fields follow the spec's MotionDelta / CorrectiveTransform data
model and the uses in `CVStabilization.cpp`. -/
structure TransformParam where
  dx : ℚ
  dy : ℚ
  da : ℚ
  deriving DecidableEq

/-- Absolute camera position (`struct CamTrajectory`: fields `x`, `y`, `a`). -/
structure CamTrajectory where
  x : ℚ
  y : ℚ
  a : ℚ
  deriving DecidableEq

/-- Modelled from the spec: the header `CVStabilization.h` (absent from
`src/`) defines the structs whose values a `std::map` `operator[]` read of a
missing key default-constructs; the numeric components of such an entry are
modelled as `0`.  (In C++ they are produced by value/default-initialization;
no claim verdict depends on the particular numbers, only on the fact that a
default-constructed value is silently substituted.) -/
def TransformParam.defaultVal : TransformParam := ⟨0, 0, 0⟩

/-- Modelled from the spec: default-constructed `CamTrajectory`; see
`TransformParam.defaultVal`. -/
def CamTrajectory.defaultVal : CamTrajectory := ⟨0, 0, 0⟩

/-- Model of `std::map<size_t, α>`: key-sorted association list.
`mapSet m k v` is the insert-or-assign performed by `m[k] = v`. -/
def mapSet {α : Type} : List (Nat × α) → Nat → α → List (Nat × α)
  | [], k, v => [(k, v)]
  | p :: t, k, v =>
    if k < p.1 then (k, v) :: p :: t
    else if k = p.1 then (k, v) :: t
    else p :: mapSet t k v

/-- Lookup in the association-list map. -/
def mapGet? {α : Type} : List (Nat × α) → Nat → Option α
  | [], _ => none
  | p :: t, k => if k = p.1 then some p.2 else mapGet? t k

/-- Value obtained by reading `m[k]` through `operator[]`: the stored value
when the key is present, otherwise the default-constructed value `d`. -/
def mapGetD {α : Type} (m : List (Nat × α)) (k : Nat) (d : α) : α :=
  (mapGet? m k).getD d

/-- `CVStabilization` configuration state: the member `smoothingWindow`
(declared `int`, modelled as `Int`). -/
structure CVStabilizationCfg where
  smoothingWindow : Int
  deriving DecidableEq

/-- `CVStabilization::CVStabilization(int _smoothingWindow)`
(CVStabilization.cpp line 37): stores the given window verbatim; the body
performs no validation of any kind. -/
def cvStabilizationMk (w : Int) : CVStabilizationCfg := ⟨w⟩

/-- `CVStabilization::CVStabilization()` (line 34): default window 30. -/
def cvStabilizationMkDefault : CVStabilizationCfg := ⟨30⟩

/-- The 2x3 matrix returned by `cv::estimateRigidTransform`; entry `mRC` is
`T.at<double>(R,C)`. -/
structure RigidT where
  m00 : ℚ
  m01 : ℚ
  m02 : ℚ
  m10 : ℚ
  m11 : ℚ
  m12 : ℚ
  deriving DecidableEq

/-- Per-call state of `CVStabilization::TrackFrameFeatures`:
whether `prev_grey` is non-empty, the cached `last_T` (an empty `cv::Mat`
is modelled as `none`), and the `prev_to_cur_transform` vector. -/
structure TrackState where
  hasPrevGrey : Bool
  last_T : Option RigidT
  prev_to_cur_transform : List TransformParam
  deriving DecidableEq

/-- `CVStabilization::TrackFrameFeatures` (lines 66-111).  The feature
detection, optical flow and `estimateRigidTransform` collaborators are
summarized by `est`: the transform estimated from the surviving point
correspondences, `none` when no transform could be produced (including the
too-few-correspondences case, where OpenCV returns an empty matrix).
`at2` is the C library's `atan2`, an external pure collaborator on the
decomposed rotation entries.

* First call (`prev_grey.empty()`): stores the frame and returns, appending
  nothing (lines 67-70).
* Otherwise, if `est` fails, `last_T` is copied into `T` (lines 94-96); the
  resulting `T` is cached back into `last_T`, decomposed into
  `(dx, dy, atan2(T10, T00))` and appended to `prev_to_cur_transform`
  (lines 98-104).
* The `none` result models the one corner in which `est` fails while
  `last_T` is still the empty matrix (no estimate has ever succeeded):
  the code then calls `T.at<double>` on an empty `cv::Mat`, which has no
  defined value. -/
def trackFrameFeatures (at2 : ℚ → ℚ → ℚ) (est : Option RigidT) (st : TrackState) :
    Option TrackState :=
  if st.hasPrevGrey = false then
    some ⟨true, st.last_T, st.prev_to_cur_transform⟩
  else
    match (match est with | some T => some T | none => st.last_T) with
    | none => none
    | some T =>
        some ⟨true, some T,
          st.prev_to_cur_transform ++ [⟨T.m02, T.m12, at2 T.m10 T.m00⟩]⟩

/-- Accumulation loop of `CVStabilization::ComputeFramesTrajectory`
(lines 123-130): running sums `x`, `y`, `a` over the deltas, pushing one
`CamTrajectory` per delta. -/
def trajFrom : ℚ → ℚ → ℚ → List TransformParam → List CamTrajectory
  | _, _, _, [] => []
  | x, y, a, d :: t =>
    CamTrajectory.mk (x + d.dx) (y + d.dy) (a + d.da) ::
      trajFrom (x + d.dx) (y + d.dy) (a + d.da) t

/-- `CVStabilization::ComputeFramesTrajectory` (lines 113-133): the sums
start from zero. -/
def computeFramesTrajectory (deltas : List TransformParam) : List CamTrajectory :=
  trajFrom 0 0 0 deltas

/-- Integer interval `[lo, hi]` as a list, the iteration space of the C++
loop `for (int j = lo; j <= hi; j++)`. -/
def intRange (lo hi : Int) : List Int :=
  (List.range (hi + 1 - lo).toNat).map (fun (k : Nat) => lo + (k : Int))

/-- The index `i + j` as the C++ expression computes it: `i` is `size_t`,
`j` is `int`, so the sum is taken modulo `2^64` as an unsigned value.
(The guard `i+j >= 0` in the source is identically true for this unsigned
value; only `i+j < trajectory.size()` filters.) -/
def windowIdx (i : Nat) (j : Int) : Nat :=
  (((i : Int) + j) % (2 ^ 64)).toNat

/-- Body of the inner window loop of `CVStabilization::SmoothTrajectory`
(lines 145-153): accumulate `sum_x`, `sum_y`, `sum_a` and `count` over the
in-range window positions. -/
def smoothStep (traj : List CamTrajectory) (i : Nat) (acc : ℚ × ℚ × ℚ × Nat)
    (j : Int) : ℚ × ℚ × ℚ × Nat :=
  if windowIdx i j < traj.length then
    (acc.1 + (traj.getD (windowIdx i j) CamTrajectory.defaultVal).x,
     acc.2.1 + (traj.getD (windowIdx i j) CamTrajectory.defaultVal).y,
     acc.2.2.1 + (traj.getD (windowIdx i j) CamTrajectory.defaultVal).a,
     acc.2.2.2 + 1)
  else acc

/-- The sums and count produced by the inner loop of `SmoothTrajectory`
for index `i`, with window half-width `W = smoothingWindow`. -/
def smoothSums (W : Int) (traj : List CamTrajectory) (i : Nat) : ℚ × ℚ × ℚ × Nat :=
  (intRange (-W) W).foldl (smoothStep traj i) (0, 0, 0, 0)

/-- The smoothed entry for index `i` (lines 155-160): each component sum
divided by `count`.  (C++ divides doubles, where `count = 0` yields NaN;
`ℚ` division is total with `q / 0 = 0`.) -/
def smoothAt (W : Int) (traj : List CamTrajectory) (i : Nat) : CamTrajectory :=
  ⟨(smoothSums W traj i).1 / ((smoothSums W traj i).2.2.2 : ℚ),
   (smoothSums W traj i).2.1 / ((smoothSums W traj i).2.2.2 : ℚ),
   (smoothSums W traj i).2.2.1 / ((smoothSums W traj i).2.2.2 : ℚ)⟩

/-- `CVStabilization::SmoothTrajectory` (lines 135-163): for each `i` from
`0` to `trajectory.size() - 1`, assign `smoothed_trajectory[i]`. -/
def smoothTrajectory (W : Int) (traj : List CamTrajectory) : List (Nat × CamTrajectory) :=
  (List.range traj.length).foldl (fun m i => mapSet m i (smoothAt W traj i)) []

/-- Loop of `CVStabilization::GenNewCamPosition` (lines 174-190): re-runs
the running sums over `prev_to_cur_transform` while reading
`smoothed_trajectory[i]` through `operator[]` (a missing index yields the
default-constructed value) and assigning `new_prev_to_cur_transform[i]`. -/
def genLoop (smoothed : List (Nat × CamTrajectory)) :
    Nat → ℚ → ℚ → ℚ → List TransformParam → List (Nat × TransformParam) →
      List (Nat × TransformParam)
  | _, _, _, _, [], m => m
  | i, x, y, a, d :: rest, m =>
    genLoop smoothed (i + 1) (x + d.dx) (y + d.dy) (a + d.da) rest
      (mapSet m i
        ⟨d.dx + ((mapGetD smoothed i CamTrajectory.defaultVal).x - (x + d.dx)),
         d.dy + ((mapGetD smoothed i CamTrajectory.defaultVal).y - (y + d.dy)),
         d.da + ((mapGetD smoothed i CamTrajectory.defaultVal).a - (a + d.da))⟩)

/-- `CVStabilization::GenNewCamPosition` (lines 166-192). -/
def genNewCamPosition (smoothed : List (Nat × CamTrajectory))
    (deltas : List TransformParam) : List (Nat × TransformParam) :=
  genLoop smoothed 0 0 0 0 deltas []

/-- One `libopenshotstabilize::Frame` protobuf record:
`{ id, x, y, a, dx, dy, da }`. -/
structure PBFrame where
  id : Nat
  x : ℚ
  y : ℚ
  a : ℚ
  dx : ℚ
  dy : ℚ
  da : ℚ
  deriving DecidableEq

/-- Record list built by `CVStabilization::SaveStabilizedData` together with
`AddFrameDataToProto` (lines 198-240): the two maps are walked by two
iterators advanced in lockstep, so the `i`-th record pairs the `i`-th entry
(in key order) of `trajectoryData` with the `i`-th entry of
`transformationData`, and its `id` is the trajectory entry's key.
(The C++ loop requires the two maps to have the same size; `zipWith`
realizes exactly the equal-size case.)  Serialization to disk and the
timestamp field are external collaborators. -/
def saveStabilizedRecords (trajectoryData : List (Nat × CamTrajectory))
    (transformationData : List (Nat × TransformParam)) : List PBFrame :=
  List.zipWith
    (fun td sd => PBFrame.mk td.1 td.2.x td.2.y td.2.a sd.2.dx sd.2.dy sd.2.da)
    trajectoryData transformationData

/-- The two data maps held by `CVStabilization` / the `Stabilizer` effect. -/
structure StabState where
  trajectoryData : List (Nat × CamTrajectory)
  transformationData : List (Nat × TransformParam)
  deriving DecidableEq

/-- Repopulation loop of `LoadStabilizedData` (CVStabilization.cpp
lines 259-280, identical in Stabilizer.cpp lines 115-137): for each record
position `i`, assign `trajectoryData[i]` and `transformationData[i]` from
record `i`'s fields.  Note that the record's `id` field is read into a
local variable and never used: the maps are keyed by the loop counter `i`,
not by `id`. -/
def loadLoop : Nat → List PBFrame → StabState → StabState
  | _, [], st => st
  | i, f :: rest, st =>
    loadLoop (i + 1) rest
      ⟨mapSet st.trajectoryData i ⟨f.x, f.y, f.a⟩,
       mapSet st.transformationData i ⟨f.dx, f.dy, f.da⟩⟩

/-- `LoadStabilizedData` (CVStabilization.cpp lines 243-291; the
`Stabilizer` effect's version in Stabilizer.cpp lines 99-148 is verbatim
identical).  Opening the stream and `ParseFromIstream` are external
collaborators summarized by `parsed`: `none` when the message cannot be
parsed.  On parse failure the function returns `false` before touching
either map (lines 249-252); on success both maps are cleared
(lines 255-256) and repopulated from the records. -/
def loadStabilizedData (parsed : Option (List PBFrame)) (st : StabState) :
    Bool × StabState :=
  match parsed with
  | none => (false, st)
  | some frames => (true, loadLoop 0 frames ⟨[], []⟩)

/-- `Stabilizer::GetFrame` (Stabilizer.cpp lines 68-96), restricted to its
interaction with `transformationData`: the matrix entries are filled from
`transformationData[frame_number]` read through `operator[]` (lines 76-82),
so a missing index first default-constructs and inserts an entry, which is
then used.  The returned pair is (the `TransformParam` whose `da`, `dx`,
`dy` are loaded into the affine matrix applied to the frame, the map after
the call).  The pixel-level `warpAffine` and the fixed 1.04 zoom are
external collaborators driven entirely by the returned parameters. -/
def stabilizerGetFrame (transformationData : List (Nat × TransformParam))
    (frame_number : Nat) : TransformParam × List (Nat × TransformParam) :=
  match mapGet? transformationData frame_number with
  | some t => (t, transformationData)
  | none => (TransformParam.defaultVal,
             mapSet transformationData frame_number TransformParam.defaultVal)

/-- Property-side definition, following the words of claim C3: the window
positions for index `i` are the indices `t` in `[i - W, i + W]` that lie
inside `[0, n - 1]`. -/
def windowJs (W : Int) (n i : Nat) : List Int :=
  (intRange ((i : Int) - W) ((i : Int) + W)).filter
    (fun t => decide (0 ≤ t ∧ t ≤ (n : Int) - 1))

/-- Property-side definition, following the words of claim C3: the
arithmetic mean, componentwise over `x`, `y`, `a`, of the trajectory
entries at the in-range window positions, with the divisor equal to the
number of positions actually summed. -/
def specSmoothedAt (W : Int) (traj : List CamTrajectory) (i : Nat) : CamTrajectory :=
  ⟨((windowJs W traj.length i).map
      (fun t => (traj.getD t.toNat CamTrajectory.defaultVal).x)).sum /
     (((windowJs W traj.length i).length : ℚ)),
   ((windowJs W traj.length i).map
      (fun t => (traj.getD t.toNat CamTrajectory.defaultVal).y)).sum /
     (((windowJs W traj.length i).length : ℚ)),
   ((windowJs W traj.length i).map
      (fun t => (traj.getD t.toNat CamTrajectory.defaultVal).a)).sum /
     (((windowJs W traj.length i).length : ℚ))⟩

/-- Running-sum helper used to characterize the accumulation loops:
`sumTake f ds t` is the sum of `f` over the deltas at indices `0..t`
(inclusive) of `ds`. -/
def sumTake (f : TransformParam → ℚ) : List TransformParam → Nat → ℚ
  | [], _ => 0
  | d :: _, 0 => f d
  | d :: rest, t + 1 => f d + sumTake f rest t

/-- Closed form of the entry that the loop of `GenNewCamPosition` assigns at
offset `t`, when started at index `i0` with accumulators `x`, `y`, `a`. -/
def genVal (smoothed : List (Nat × CamTrajectory)) (i0 : Nat) (x y a : ℚ)
    (ds : List TransformParam) (t : Nat) : TransformParam :=
  ⟨(ds.getD t TransformParam.defaultVal).dx +
     ((mapGetD smoothed (i0 + t) CamTrajectory.defaultVal).x -
       (x + sumTake TransformParam.dx ds t)),
   (ds.getD t TransformParam.defaultVal).dy +
     ((mapGetD smoothed (i0 + t) CamTrajectory.defaultVal).y -
       (y + sumTake TransformParam.dy ds t)),
   (ds.getD t TransformParam.defaultVal).da +
     ((mapGetD smoothed (i0 + t) CamTrajectory.defaultVal).a -
       (a + sumTake TransformParam.da ds t))⟩

/-! ### Association-list map lemmas -/

theorem mapGet?_append {α : Type} (l₁ l₂ : List (Nat × α)) (k : Nat) :
    mapGet? (l₁ ++ l₂) k =
      match mapGet? l₁ k with
      | some v => some v
      | none => mapGet? l₂ k := by
  induction l₁ with
  | nil => simp [mapGet?]
  | cons p t ih =>
    by_cases h : k = p.1 <;> simp [mapGet?, h, ih]

theorem mapSet_of_forall_lt {α : Type} (m : List (Nat × α)) (k : Nat) (v : α)
    (h : ∀ p ∈ m, p.1 < k) : mapSet m k v = m ++ [(k, v)] := by
  induction m with
  | nil => rfl
  | cons p t ih =>
    have h1 : p.1 < k := h p (by simp)
    have h2 : ¬ k < p.1 := by omega
    have h3 : ¬ k = p.1 := by omega
    simp only [mapSet, if_neg h2, if_neg h3, List.cons_append, List.cons.injEq, true_and]
    exact ih (fun q hq => h q (by simp [hq]))

theorem foldl_mapSet_range {α : Type} (f : Nat → α) (n : Nat) :
    (List.range n).foldl (fun m i => mapSet m i (f i)) [] =
      (List.range n).map (fun i => (i, f i)) := by
  induction n with
  | zero => rfl
  | succ n ih =>
    rw [List.range_succ, List.foldl_append, List.map_append, ih]
    simp only [List.foldl_cons, List.foldl_nil, List.map_cons, List.map_nil]
    apply mapSet_of_forall_lt
    intro p hp
    simp only [List.mem_map, List.mem_range] at hp
    obtain ⟨a, ha, rfl⟩ := hp
    exact ha

theorem mapGet?_rangeMap {α : Type} (f : Nat → α) (n k : Nat) :
    mapGet? ((List.range n).map (fun i => (i, f i))) k =
      if k < n then some (f k) else none := by
  induction n with
  | zero => simp [mapGet?]
  | succ n ih =>
    rw [List.range_succ, List.map_append, mapGet?_append, ih]
    by_cases h : k < n
    · simp [h, (show k < n + 1 by omega)]
    · by_cases h2 : k = n
      · simp [h, h2, mapGet?]
      · simp [h, h2, mapGet?, (show ¬ k < n + 1 by omega)]

theorem mapGet?_mapSet_self {α : Type} (m : List (Nat × α)) (k : Nat) (v : α) :
    mapGet? (mapSet m k v) k = some v := by
  induction m with
  | nil => simp [mapSet, mapGet?]
  | cons p t ih =>
    by_cases h1 : k < p.1
    · simp [mapSet, h1, mapGet?]
    · by_cases h2 : k = p.1
      · simp [mapSet, h1, h2, mapGet?]
      · simp [mapSet, h1, h2, mapGet?, ih]

theorem mapGet?_mapSet_ne {α : Type} (m : List (Nat × α)) (k j : Nat) (v : α)
    (h : j ≠ k) : mapGet? (mapSet m k v) j = mapGet? m j := by
  induction m with
  | nil => simp [mapSet, mapGet?, h]
  | cons p t ih =>
    by_cases h1 : k < p.1
    · simp [mapSet, h1, mapGet?, h]
    · by_cases h2 : k = p.1
      · have hjp : ¬ j = p.1 := by omega
        simp [mapSet, h1, h2, mapGet?, hjp]
      · by_cases h3 : j = p.1 <;> simp [mapSet, h1, h2, mapGet?, h3, ih]

/-! ### Integer-range lemmas -/

theorem mem_intRange {lo hi t : Int} : t ∈ intRange lo hi ↔ lo ≤ t ∧ t ≤ hi := by
  simp only [intRange, List.mem_map, List.mem_range]
  constructor
  · rintro ⟨k, hk, rfl⟩
    omega
  · rintro ⟨h1, h2⟩
    exact ⟨(t - lo).toNat, by omega, by omega⟩

theorem intRange_sortedLT (lo hi : Int) : (intRange lo hi).Pairwise (· < ·) := by
  unfold intRange
  exact List.Pairwise.map _ (fun a b hab => by omega) (List.pairwise_lt_range _)

theorem intRange_nodup (lo hi : Int) : (intRange lo hi).Nodup :=
  (intRange_sortedLT lo hi).imp (fun h => ne_of_lt h)

theorem intRange_filter_Icc (lo hi a b : Int) :
    (intRange lo hi).filter (fun t => decide (a ≤ t ∧ t ≤ b)) =
      intRange (max lo a) (min hi b) := by
  haveI : IsAntisymm Int (· < ·) := ⟨fun x y h1 h2 => absurd h1 (by omega)⟩
  have hperm : List.Perm
      ((intRange lo hi).filter (fun t => decide (a ≤ t ∧ t ≤ b)))
      (intRange (max lo a) (min hi b)) := by
    refine (List.perm_ext_iff_of_nodup ((intRange_nodup lo hi).filter _)
      (intRange_nodup _ _)).mpr ?_
    intro t
    simp only [List.mem_filter, mem_intRange, decide_eq_true_eq]
    omega
  exact List.eq_of_perm_of_sorted hperm
    (List.Pairwise.sublist (List.filter_sublist _) (intRange_sortedLT lo hi))
    (intRange_sortedLT _ _)

theorem intRange_shift (c lo hi : Int) :
    (intRange lo hi).map (fun t => c + t) = intRange (c + lo) (c + hi) := by
  unfold intRange
  rw [List.map_map, show c + hi + 1 - (c + lo) = hi + 1 - lo by ring]
  apply List.map_congr_left
  intro k _
  simp only [Function.comp_apply]
  ring

theorem intRange_zero_upto (n : Nat) :
    intRange 0 ((n : Int) - 1) = (List.range n).map (fun (k : Nat) => (k : Int)) := by
  unfold intRange
  rw [show ((n : Int) - 1 + 1 - 0).toNat = n by omega]
  apply List.map_congr_left
  intro k _
  simp

theorem range_map_getD {α β : Type} (l : List α) (d : α) (f : α → β) :
    (List.range l.length).map (fun k => f (l.getD k d)) = l.map f := by
  apply List.ext_get
  · simp
  · intro k h1 h2
    simp only [List.length_map, List.length_range] at h1 h2
    simp only [List.get_map, List.get_range]
    congr 1
    exact List.getD_eq_get l d h2

/-! ### Accumulation-loop characterizations -/

theorem sumTake_eq_take_sum (f : TransformParam → ℚ) (ds : List TransformParam) :
    ∀ t : Nat, sumTake f ds t = ((ds.take (t + 1)).map f).sum := by
  induction ds with
  | nil => intro t; simp [sumTake]
  | cons d rest ih =>
    intro t
    cases t with
    | zero =>
      simp [sumTake, show List.take 1 (d :: rest) = [d] from rfl]
    | succ t =>
      simp only [sumTake, ih t, List.take_succ_cons, List.map_cons, List.sum_cons]

theorem trajFrom_spec (ds : List TransformParam) :
    ∀ x y a : ℚ,
      trajFrom x y a ds = (List.range ds.length).map (fun t =>
        CamTrajectory.mk (x + sumTake TransformParam.dx ds t)
          (y + sumTake TransformParam.dy ds t)
          (a + sumTake TransformParam.da ds t)) := by
  induction ds with
  | nil => intro x y a; rfl
  | cons d rest ih =>
    intro x y a
    simp only [trajFrom]
    rw [ih (x + d.dx) (y + d.dy) (a + d.da)]
    rw [List.length_cons, List.range_succ_eq_map, List.map_cons, List.map_map]
    congr 1
    apply List.map_congr_left
    intro t ht
    simp only [Function.comp_apply, sumTake, CamTrajectory.mk.injEq]
    exact ⟨by ring, by ring, by ring⟩

theorem genLoop_spec (smoothed : List (Nat × CamTrajectory)) (ds : List TransformParam) :
    ∀ (i0 : Nat) (x y a : ℚ) (m : List (Nat × TransformParam)),
      (∀ p ∈ m, p.1 < i0) →
      genLoop smoothed i0 x y a ds m =
        m ++ (List.range ds.length).map
          (fun t => (i0 + t, genVal smoothed i0 x y a ds t)) := by
  induction ds with
  | nil =>
    intro i0 x y a m hm
    simp [genLoop]
  | cons d rest ih =>
    intro i0 x y a m hm
    simp only [genLoop]
    rw [mapSet_of_forall_lt m i0 _ hm]
    have hm2 : ∀ p ∈ m ++ [(i0,
        (⟨d.dx + ((mapGetD smoothed i0 CamTrajectory.defaultVal).x - (x + d.dx)),
          d.dy + ((mapGetD smoothed i0 CamTrajectory.defaultVal).y - (y + d.dy)),
          d.da + ((mapGetD smoothed i0 CamTrajectory.defaultVal).a - (a + d.da))⟩ :
          TransformParam))], p.1 < i0 + 1 := by
      intro p hp
      rcases List.mem_append.mp hp with h | h
      · have := hm p h
        omega
      · simp only [List.mem_singleton] at h
        subst h
        omega
    rw [ih (i0 + 1) (x + d.dx) (y + d.dy) (a + d.da) _ hm2]
    rw [List.append_assoc]
    congr 1
    rw [List.singleton_append, List.length_cons, List.range_succ_eq_map, List.map_cons,
      List.map_map]
    congr 1
    apply List.map_congr_left
    intro t ht
    have hkey : i0 + (t + 1) = i0 + 1 + t := by omega
    simp only [Function.comp_apply, genVal, List.getD_cons_succ, sumTake, Prod.mk.injEq,
      TransformParam.mk.injEq]
    refine ⟨by omega, ?_, ?_, ?_⟩ <;> (rw [hkey]; ring)

/-! ### Smoothing-window characterization -/

theorem windowJs_eq_Icc (W : Int) (n i : Nat) :
    windowJs W n i =
      intRange (max ((i : Int) - W) 0) (min ((i : Int) + W) ((n : Int) - 1)) := by
  unfold windowJs
  exact intRange_filter_Icc _ _ 0 ((n : Int) - 1)

theorem windowJs_zero (n i : Nat) (hi : i < n) : windowJs 0 n i = [(i : Int)] := by
  rw [windowJs_eq_Icc]
  rw [max_eq_left (by omega : (0 : Int) ≤ (i : Int) - 0)]
  rw [min_eq_left (by omega : (i : Int) + 0 ≤ (n : Int) - 1)]
  unfold intRange
  rw [show ((i : Int) + 0 + 1 - ((i : Int) - 0)).toNat = 1 by omega]
  rw [show List.range 1 = [0] from rfl]
  simp

theorem windowJs_full (W : Int) (n i : Nat) (hi : i < n) (hW : (n : Int) ≤ W) :
    windowJs W n i = intRange 0 ((n : Int) - 1) := by
  rw [windowJs_eq_Icc]
  rw [max_eq_right (by omega : (i : Int) - W ≤ 0)]
  rw [min_eq_right (by omega : (n : Int) - 1 ≤ (i : Int) + W)]

theorem map_getD_intRange_full {β : Type} (l : List CamTrajectory) (g : CamTrajectory → β) :
    (intRange 0 ((l.length : Int) - 1)).map
      (fun t => g (l.getD t.toNat CamTrajectory.defaultVal)) = l.map g := by
  rw [intRange_zero_upto, List.map_map]
  have hfun : ((fun t => g (l.getD t.toNat CamTrajectory.defaultVal)) ∘
      (fun (k : Nat) => (k : Int))) = fun k => g (l.getD k CamTrajectory.defaultVal) := by
    funext k
    simp [Function.comp_apply, Int.toNat_natCast]
  rw [hfun, range_map_getD]

theorem length_intRange_full (n : Nat) : (intRange 0 ((n : Int) - 1)).length = n := by
  rw [intRange_zero_upto]
  simp

theorem smoothStep_foldl (traj : List CamTrajectory) (i : Nat) (js : List Int) :
    ∀ acc : ℚ × ℚ × ℚ × Nat,
      js.foldl (smoothStep traj i) acc =
        (acc.1 + ((js.filter (fun j => decide (windowIdx i j < traj.length))).map
            (fun j => (traj.getD (windowIdx i j) CamTrajectory.defaultVal).x)).sum,
         acc.2.1 + ((js.filter (fun j => decide (windowIdx i j < traj.length))).map
            (fun j => (traj.getD (windowIdx i j) CamTrajectory.defaultVal).y)).sum,
         acc.2.2.1 + ((js.filter (fun j => decide (windowIdx i j < traj.length))).map
            (fun j => (traj.getD (windowIdx i j) CamTrajectory.defaultVal).a)).sum,
         acc.2.2.2 + (js.filter (fun j => decide (windowIdx i j < traj.length))).length) := by
  induction js with
  | nil =>
    intro acc
    simp
  | cons j t ih =>
    intro acc
    rw [List.foldl_cons, ih]
    by_cases h : windowIdx i j < traj.length
    · have hd : decide (windowIdx i j < traj.length) = true := decide_eq_true_eq.mpr h
      simp only [smoothStep, if_pos h, List.filter_cons, hd, if_true, List.map_cons,
        List.sum_cons, List.length_cons, Prod.mk.injEq]
      refine ⟨by ring, by ring, by ring, by omega⟩
    · have hd : decide (windowIdx i j < traj.length) = false := by
        simp [h]
      simp only [smoothStep, if_neg h, List.filter_cons, hd, Bool.false_eq_true, if_false]

theorem smoothSums_spec (W : Int) (traj : List CamTrajectory) (i : Nat)
    (hW : 0 ≤ W) (hi : i < traj.length)
    (hn : (traj.length : Int) + W ≤ 2 ^ 64) :
    smoothSums W traj i =
      (((windowJs W traj.length i).map
          (fun t => (traj.getD t.toNat CamTrajectory.defaultVal).x)).sum,
       ((windowJs W traj.length i).map
          (fun t => (traj.getD t.toNat CamTrajectory.defaultVal).y)).sum,
       ((windowJs W traj.length i).map
          (fun t => (traj.getD t.toNat CamTrajectory.defaultVal).a)).sum,
       (windowJs W traj.length i).length) := by
  have hJ : windowJs W traj.length i =
      ((intRange (-W) W).filter
        (fun j => decide (windowIdx i j < traj.length))).map (fun j => (i : Int) + j) := by
    unfold windowJs
    have h1 : intRange ((i : Int) - W) ((i : Int) + W) =
        (intRange (-W) W).map (fun t => (i : Int) + t) := by
      rw [intRange_shift]
      congr 1 <;> ring
    rw [h1, List.filter_map]
    congr 1
    apply List.filter_congr
    intro j hj
    have hjb := mem_intRange.mp hj
    simp only [Function.comp_apply]
    rw [decide_eq_decide]
    unfold windowIdx
    omega
  have hmap : ∀ (g : CamTrajectory → ℚ),
      ((intRange (-W) W).filter (fun j => decide (windowIdx i j < traj.length))).map
        ((fun t => g (traj.getD t.toNat CamTrajectory.defaultVal)) ∘
          (fun j => (i : Int) + j)) =
      ((intRange (-W) W).filter (fun j => decide (windowIdx i j < traj.length))).map
        (fun j => g (traj.getD (windowIdx i j) CamTrajectory.defaultVal)) := by
    intro g
    apply List.map_congr_left
    intro j hj
    rw [List.mem_filter] at hj
    have hjb := mem_intRange.mp hj.1
    have hlt : windowIdx i j < traj.length := by
      have h2 := hj.2
      simpa using h2
    have hidx : ((i : Int) + j).toNat = windowIdx i j := by
      unfold windowIdx at hlt ⊢
      omega
    simp only [Function.comp_apply, hidx]
  unfold smoothSums
  rw [smoothStep_foldl traj i (intRange (-W) W) (0, 0, 0, 0), hJ]
  simp only [List.map_map, List.length_map]
  rw [hmap CamTrajectory.x, hmap CamTrajectory.y, hmap CamTrajectory.a]
  simp

theorem smoothAt_eq_spec (W : Int) (traj : List CamTrajectory) (i : Nat)
    (hW : 0 ≤ W) (hi : i < traj.length)
    (hn : (traj.length : Int) + W ≤ 2 ^ 64) :
    smoothAt W traj i = specSmoothedAt W traj i := by
  unfold smoothAt specSmoothedAt
  rw [smoothSums_spec W traj i hW hi hn]

/-- The entry `GenNewCamPosition` produces at any in-range index `i`. -/
theorem genNewCamPosition_get? (smoothed : List (Nat × CamTrajectory))
    (ds : List TransformParam) (i : Nat) (hi : i < ds.length) :
    mapGet? (genNewCamPosition smoothed ds) i =
      some (genVal smoothed 0 0 0 0 ds i) := by
  unfold genNewCamPosition
  rw [genLoop_spec smoothed ds 0 0 0 0 [] (by simp), List.nil_append]
  have h0 : (fun t => ((0 : Nat) + t, genVal smoothed 0 0 0 0 ds t)) =
      fun t => (t, genVal smoothed 0 0 0 0 ds t) := by
    funext t
    simp
  rw [h0, mapGet?_rangeMap (genVal smoothed 0 0 0 0 ds) ds.length i, if_pos hi]

/-! ### Claims -/

/-- Claim C1: for every index `i` of the motion-delta sequence whose smoothed
entry is present, `GenNewCamPosition` produces
`CorrectiveTransform[i].dx = MotionDelta[i].dx + (SmoothedTrajectory[i].x -
CameraTrajectory[i].x)` (and likewise for `dy`/`y` and `da`/`a`), where
`CameraTrajectory[i]` is the running sum of deltas `0..i`. -/
theorem c1_genNewCamPosition_corrective (ds : List TransformParam)
    (smoothed : List (Nat × CamTrajectory)) (i : Nat) (s : CamTrajectory)
    (hi : i < ds.length) (hs : mapGet? smoothed i = some s) :
    mapGet? (genNewCamPosition smoothed ds) i =
      some ⟨(ds.getD i TransformParam.defaultVal).dx +
              (s.x - ((ds.take (i + 1)).map TransformParam.dx).sum),
            (ds.getD i TransformParam.defaultVal).dy +
              (s.y - ((ds.take (i + 1)).map TransformParam.dy).sum),
            (ds.getD i TransformParam.defaultVal).da +
              (s.a - ((ds.take (i + 1)).map TransformParam.da).sum)⟩ := by
  rw [genNewCamPosition_get? smoothed ds i hi]
  unfold genVal
  simp [mapGetD, hs, sumTake_eq_take_sum]

/-- Witness for C1 at a concrete input: with delta `(1,2,3)` and smoothed
entry `(5,7,9)` at index 0, the corrective transform is
`(1+(5-1), 2+(7-2), 3+(9-3)) = (5,7,9)`. -/
theorem c1_witness :
    mapGet? (genNewCamPosition [(0, ⟨5, 7, 9⟩)] [⟨1, 2, 3⟩]) 0 = some ⟨5, 7, 9⟩ := by
  have h := c1_genNewCamPosition_corrective [⟨1, 2, 3⟩] [(0, ⟨5, 7, 9⟩)] 0 ⟨5, 7, 9⟩
    (by decide) (by rfl)
  rw [h]
  norm_num [TransformParam.defaultVal]

/-- Claim C2: `ComputeFramesTrajectory` returns one entry per delta, and the
entry at index `i` is the componentwise sum of deltas `0..i` inclusive, with
no normalization or wrapping of the accumulated angle (the sum is exact). -/
theorem c2_computeFramesTrajectory_runningSum (ds : List TransformParam) :
    (computeFramesTrajectory ds).length = ds.length ∧
    ∀ i, i < ds.length →
      (computeFramesTrajectory ds)[i]? =
        some ⟨((ds.take (i + 1)).map TransformParam.dx).sum,
              ((ds.take (i + 1)).map TransformParam.dy).sum,
              ((ds.take (i + 1)).map TransformParam.da).sum⟩ := by
  unfold computeFramesTrajectory
  rw [trajFrom_spec ds 0 0 0]
  constructor
  · simp
  · intro i hi
    rw [List.getElem?_map, List.getElem?_range hi]
    simp [sumTake_eq_take_sum]

/-- Witness for C2 at a concrete input: for deltas
`[(1,0,0), (1,0,0), (-1,0,0)]` the trajectory has 3 entries and entry 2 is
`(1, 0, 0)`. -/
theorem c2_witness :
    (computeFramesTrajectory [⟨1, 0, 0⟩, ⟨1, 0, 0⟩, ⟨-1, 0, 0⟩]).length = 3 ∧
    (computeFramesTrajectory [⟨1, 0, 0⟩, ⟨1, 0, 0⟩, ⟨-1, 0, 0⟩])[2]? =
      some ⟨1, 0, 0⟩ := by
  have h := c2_computeFramesTrajectory_runningSum [⟨1, 0, 0⟩, ⟨1, 0, 0⟩, ⟨-1, 0, 0⟩]
  refine ⟨h.1, ?_⟩
  rw [h.2 2 (by decide)]
  norm_num

/-- Claim C3: for `W ≥ 0` (and any trajectory a real vector can hold,
`n + W ≤ 2^64`), `SmoothTrajectory` produces a mapping whose keys are
exactly `0..n-1`; entry `i` is the componentwise arithmetic mean of the
trajectory entries at the window positions `[i-W, i+W] ∩ [0, n-1]`, with
the divisor equal to the number of positions actually summed; every window
position read is in range; the window is never empty; `W = 0` reproduces
the input, and `W ≥ n` yields the whole-sequence average at every index. -/
theorem c3_smoothTrajectory_windowMean (W : Int) (traj : List CamTrajectory)
    (hW : 0 ≤ W) (hn : (traj.length : Int) + W ≤ 2 ^ 64) :
    ((smoothTrajectory W traj).map Prod.fst = List.range traj.length) ∧
    (∀ i, i < traj.length →
      mapGet? (smoothTrajectory W traj) i = some (specSmoothedAt W traj i)) ∧
    (∀ i, i < traj.length → ∀ t ∈ windowJs W traj.length i,
      0 ≤ t ∧ t ≤ (traj.length : Int) - 1) ∧
    (∀ i, i < traj.length → 0 < (windowJs W traj.length i).length) ∧
    (W = 0 → ∀ i, i < traj.length →
      smoothAt W traj i = traj.getD i CamTrajectory.defaultVal) ∧
    ((traj.length : Int) ≤ W → ∀ i, i < traj.length →
      smoothAt W traj i =
        ⟨(traj.map CamTrajectory.x).sum / (traj.length : ℚ),
         (traj.map CamTrajectory.y).sum / (traj.length : ℚ),
         (traj.map CamTrajectory.a).sum / (traj.length : ℚ)⟩) := by
  have hfold := foldl_mapSet_range (smoothAt W traj) traj.length
  refine ⟨?_, ?_, ?_, ?_, ?_, ?_⟩
  · unfold smoothTrajectory
    rw [hfold, List.map_map,
      show (Prod.fst ∘ fun i => (i, smoothAt W traj i)) = id from rfl, List.map_id]
  · intro i hi
    unfold smoothTrajectory
    rw [hfold, mapGet?_rangeMap, if_pos hi, smoothAt_eq_spec W traj i hW hi hn]
  · intro i hi t ht
    rw [windowJs_eq_Icc] at ht
    have hb := mem_intRange.mp ht
    omega
  · intro i hi
    have hmem : (i : Int) ∈ windowJs W traj.length i := by
      rw [windowJs_eq_Icc]
      apply mem_intRange.mpr
      omega
    exact List.length_pos_of_mem hmem
  · intro hW0 i hi
    subst hW0
    rw [smoothAt_eq_spec 0 traj i hW hi hn]
    simp only [specSmoothedAt]
    rw [windowJs_zero traj.length i hi]
    simp only [List.map_cons, List.map_nil, List.sum_cons, List.sum_nil, List.length_cons,
      List.length_nil, Int.toNat_natCast, add_zero, zero_add, Nat.cast_one, div_one]
  · intro hWn i hi
    rw [smoothAt_eq_spec W traj i hW hi hn]
    unfold specSmoothedAt
    rw [windowJs_full W traj.length i hi hWn]
    rw [map_getD_intRange_full traj CamTrajectory.x,
      map_getD_intRange_full traj CamTrajectory.y,
      map_getD_intRange_full traj CamTrajectory.a, length_intRange_full]

/-- Witness for C3 at a concrete input: window 1 over `[(1,0,0), (3,0,0)]`;
the smoothed entry at index 0 averages indices 0 and 1: `(2, 0, 0)`, and
the key set is `{0, 1}`. -/
theorem c3_witness :
    mapGet? (smoothTrajectory 1 [⟨1, 0, 0⟩, ⟨3, 0, 0⟩]) 0 = some ⟨2, 0, 0⟩ ∧
    (smoothTrajectory 1 [⟨1, 0, 0⟩, ⟨3, 0, 0⟩]).map Prod.fst = List.range 2 := by
  have h := c3_smoothTrajectory_windowMean 1 [⟨1, 0, 0⟩, ⟨3, 0, 0⟩]
    (by decide) (by decide)
  refine ⟨?_, h.1⟩
  rw [h.2.1 0 (by decide)]
  simp only [specSmoothedAt]
  rw [show windowJs 1 ([(⟨1, 0, 0⟩ : CamTrajectory), ⟨3, 0, 0⟩].length) 0 = [0, 1] from rfl]
  norm_num [CamTrajectory.defaultVal]

/-- Claim C4 (failing input): saving the pair of mappings whose only key is
`1` and loading the result does not reproduce the originals: the loaded
maps are keyed by record position (`0`), not by the saved key, so the
original entries at key `1` are gone.  The record values themselves pass
through unchanged. -/
theorem c4_roundtrip_failing :
    loadStabilizedData
        (some (saveStabilizedRecords [(1, ⟨1, 2, 3⟩)] [(1, ⟨4, 5, 6⟩)])) ⟨[], []⟩ =
      (true, ⟨[(0, ⟨1, 2, 3⟩)], [(0, ⟨4, 5, 6⟩)]⟩) ∧
    mapGet? (loadStabilizedData
        (some (saveStabilizedRecords [(1, ⟨1, 2, 3⟩)] [(1, ⟨4, 5, 6⟩)]))
        ⟨[], []⟩).2.trajectoryData 1 = none ∧
    (saveStabilizedRecords [(1, ⟨1, 2, 3⟩)] [(1, ⟨4, 5, 6⟩)]).map PBFrame.id = [1] := by
  exact ⟨rfl, rfl, rfl⟩

/-- Claim C5 (failing input): `LoadStabilizedData` keys the rebuilt maps by
record position, ignoring the record's `id` field: loading
`[{id 1, vals 1...}, {id 0, vals 2...}]` puts the `id = 1` record at key 0,
and permuting the two records changes the resulting state. -/
theorem c5_load_position_keyed :
    mapGet? (loadStabilizedData (some [⟨1, 1, 1, 1, 1, 1, 1⟩, ⟨0, 2, 2, 2, 2, 2, 2⟩])
        ⟨[], []⟩).2.trajectoryData 0 = some ⟨1, 1, 1⟩ ∧
    loadStabilizedData (some [⟨1, 1, 1, 1, 1, 1, 1⟩, ⟨0, 2, 2, 2, 2, 2, 2⟩]) ⟨[], []⟩ ≠
      loadStabilizedData (some [⟨0, 2, 2, 2, 2, 2, 2⟩, ⟨1, 1, 1, 1, 1, 1, 1⟩]) ⟨[], []⟩ := by
  refine ⟨rfl, ?_⟩
  intro h
  have h2 := congrArg (fun p => mapGet? p.2.trajectoryData 0) h
  simp only [mapGet?] at h2
  exact absurd (congrArg CamTrajectory.x (Option.some.injEq _ _ ▸ h2)) (by norm_num)

/-- Claim C6: when the artifact cannot be parsed (including an unopenable
stream, summarized by the parse collaborator returning failure),
`LoadStabilizedData` returns `false` — it never raises — and leaves both the
trajectory mapping and the transform mapping exactly as they were: the
failure return happens before the maps are cleared or touched. -/
theorem c6_load_failure_state_unchanged :
    ∀ st : StabState, loadStabilizedData none st = (false, st) :=
  fun _ => rfl

/-- Counterexample to claim C7: a render request for frame index 0 on an
empty corrective-transform mapping does not fail fast: it applies the
default-constructed transform (and inserts it); and `GenNewCamPosition`
over a smoothed map missing index 0 still produces an output entry there
instead of failing. -/
theorem c7_counterexample :
    (stabilizerGetFrame [] 0).1 = TransformParam.defaultVal ∧
    (stabilizerGetFrame [] 0).2 = [(0, TransformParam.defaultVal)] ∧
    (genNewCamPosition [] [⟨1, 2, 3⟩]).length = 1 ∧
    mapGet? (genNewCamPosition [] [⟨1, 2, 3⟩]) 0 ≠ none := by
  refine ⟨rfl, rfl, rfl, ?_⟩
  intro h
  rw [genNewCamPosition_get? [] [⟨1, 2, 3⟩] 0 (by decide)] at h
  exact Option.noConfusion h

/-- Claim C7 as amended: a render request for a frame index absent from the
loaded mapping silently default-constructs an entry, inserts it at that
index and applies the default transform; and `GenNewCamPosition` at a
raw-delta index with no matching smoothed entry silently substitutes the
default-constructed trajectory value in the corrective-transform formula.
No error is raised in either case. -/
theorem c7_amended_silent_default (m : List (Nat × TransformParam)) (k : Nat)
    (hm : mapGet? m k = none) (ds : List TransformParam)
    (smoothed : List (Nat × CamTrajectory)) (i : Nat)
    (hi : i < ds.length) (hs : mapGet? smoothed i = none) :
    stabilizerGetFrame m k =
      (TransformParam.defaultVal, mapSet m k TransformParam.defaultVal) ∧
    mapGet? (genNewCamPosition smoothed ds) i =
      some ⟨(ds.getD i TransformParam.defaultVal).dx +
              (CamTrajectory.defaultVal.x - ((ds.take (i + 1)).map TransformParam.dx).sum),
            (ds.getD i TransformParam.defaultVal).dy +
              (CamTrajectory.defaultVal.y - ((ds.take (i + 1)).map TransformParam.dy).sum),
            (ds.getD i TransformParam.defaultVal).da +
              (CamTrajectory.defaultVal.a - ((ds.take (i + 1)).map TransformParam.da).sum)⟩ := by
  constructor
  · unfold stabilizerGetFrame
    rw [hm]
  · rw [genNewCamPosition_get? smoothed ds i hi]
    unfold genVal
    simp [mapGetD, hs, sumTake_eq_take_sum]

/-- Witness for C7's amended statement at a concrete input. -/
theorem c7_witness :
    stabilizerGetFrame [(1, ⟨1, 1, 1⟩)] 0 =
      (TransformParam.defaultVal, mapSet [(1, ⟨1, 1, 1⟩)] 0 TransformParam.defaultVal) ∧
    mapGet? (genNewCamPosition [] [⟨2, 4, 6⟩]) 0 =
      some ⟨2 + (CamTrajectory.defaultVal.x - 2), 4 + (CamTrajectory.defaultVal.y - 4),
            6 + (CamTrajectory.defaultVal.a - 6)⟩ := by
  have h := c7_amended_silent_default [(1, ⟨1, 1, 1⟩)] 0 (by rfl) [⟨2, 4, 6⟩] [] 0
    (by decide) (by rfl)
  refine ⟨h.1, ?_⟩
  rw [h.2]
  norm_num

/-- Counterexample to claim C8: the claim's unconditional "never raises,
a MotionDelta is still appended" fails on a reachable input.  On a call
after the first (`prev_grey` non-empty) in which the estimator fails while
no transform has ever been successfully estimated, `last_T` is still the
empty `cv::Mat`; copying it into `T` leaves `T` empty and the code then
executes `T.at<double>(0,2)` on an empty matrix — a read through null data
(crash / undefined behavior) — and no `MotionDelta` is appended.  The
embedding models that undefined read as `none`: no defined resulting state
exists for this call. -/
theorem c8_counterexample :
    trackFrameFeatures (fun _ _ => 0) none ⟨true, none, []⟩ = none := by
  rfl

/-- Claim C8 as amended: on every call after the first (`prev_grey`
non-empty), when the rigid-transform estimator cannot produce a transform
and a previously successfully-estimated transform exists,
`TrackFrameFeatures` does not fail: it reuses the cached `last_T` verbatim
(both as the decomposed result and as the new `last_T`) and still appends
a `MotionDelta`; when the estimator succeeds, a delta is likewise
appended.  (When the estimator fails before any success, the call instead
reads entries of an empty `cv::Mat` — undefined behavior, no appended
delta — as `c8_counterexample` shows.) -/
theorem c8_trackFrameFeatures_freeze (at2 : ℚ → ℚ → ℚ) (st : TrackState) (T : RigidT)
    (hprev : st.hasPrevGrey = true) (hlast : st.last_T = some T) :
    trackFrameFeatures at2 none st =
      some ⟨true, some T,
        st.prev_to_cur_transform ++ [⟨T.m02, T.m12, at2 T.m10 T.m00⟩]⟩ ∧
    ∀ T2 : RigidT, trackFrameFeatures at2 (some T2) st =
      some ⟨true, some T2,
        st.prev_to_cur_transform ++ [⟨T2.m02, T2.m12, at2 T2.m10 T2.m00⟩]⟩ := by
  constructor
  · unfold trackFrameFeatures
    rw [hprev]
    simp [hlast]
  · intro T2
    unfold trackFrameFeatures
    rw [hprev]
    simp

/-- Witness for C8 at a concrete input: with a cached transform
`(1,2,3,4,5,6)` and a failing estimation, the call returns, keeps the
cached transform and appends its decomposition. -/
theorem c8_witness :
    trackFrameFeatures (fun _ _ => 0) none ⟨true, some ⟨1, 2, 3, 4, 5, 6⟩, []⟩ =
      some ⟨true, some ⟨1, 2, 3, 4, 5, 6⟩, [⟨3, 6, 0⟩]⟩ := by
  have h := c8_trackFrameFeatures_freeze (fun _ _ => 0)
    ⟨true, some ⟨1, 2, 3, 4, 5, 6⟩, []⟩ ⟨1, 2, 3, 4, 5, 6⟩ rfl rfl
  rw [h.1]
  rfl

/-- Counterexample to claim C9: construction with the negative window `-1`
is not rejected — the constructor stores `-1` verbatim, so a pipeline
instance with a negative window exists — and smoothing evaluated with that
window runs its inner loop zero times, leaving `count = 0` even on a
non-empty trajectory (in the C++ doubles, the subsequent `sum / count` is a
division by zero). -/
theorem c9_counterexample :
    (cvStabilizationMk (-1)).smoothingWindow = -1 ∧
    ¬ 0 ≤ (cvStabilizationMk (-1)).smoothingWindow ∧
    (smoothSums (-1) [⟨1, 1, 1⟩] 0).2.2.2 = 0 := by
  exact ⟨rfl, by decide, rfl⟩

/-- Claim C9 as amended: the constructors perform no validation — any
window value, including negative ones, is stored verbatim (the default
constructor stores 30) — and with a negative window `SmoothTrajectory`
still runs: its window loop body executes zero times at every index, so
every sum and the count are 0 (and the C++ average divides by zero). -/
theorem c9_amended_no_validation (w : Int) :
    (cvStabilizationMk w).smoothingWindow = w ∧
    cvStabilizationMkDefault.smoothingWindow = 30 ∧
    (w < 0 → ∀ (traj : List CamTrajectory) (i : Nat),
      smoothSums w traj i = (0, 0, 0, 0)) := by
  refine ⟨rfl, rfl, ?_⟩
  intro hw traj i
  have hempty : intRange (-w) w = [] := by
    unfold intRange
    rw [show (w + 1 - -w).toNat = 0 by omega]
    rfl
  unfold smoothSums
  rw [hempty]
  rfl

/-- Witness for C9's amended statement at a concrete input. -/
theorem c9_witness :
    (cvStabilizationMk (-2)).smoothingWindow = -2 ∧
    cvStabilizationMkDefault.smoothingWindow = 30 ∧
    smoothSums (-2) [⟨1, 2, 3⟩] 5 = (0, 0, 0, 0) := by
  have h := c9_amended_no_validation (-2)
  exact ⟨h.1, h.2.1, h.2.2 (by decide) [⟨1, 2, 3⟩] 5⟩

/-- Counterexample to claim C10: rendering frame 0 with an empty loaded
mapping changes the mapping — `operator[]` inserts a default entry at the
requested index, so the key set after the call differs from before. -/
theorem c10_counterexample : (stabilizerGetFrame [] 0).2 ≠ [] := by
  intro h
  exact List.noConfusion h

/-- Claim C10 as amended: `GetFrame` leaves the loaded corrective-transform
mapping unchanged whenever the requested index is present; when the index
is absent, a default-constructed entry is inserted at that index — every
other entry is preserved, but the key set grows. -/
theorem c10_amended_readonly_when_present (m : List (Nat × TransformParam)) (k : Nat) :
    (∀ t, mapGet? m k = some t → stabilizerGetFrame m k = (t, m)) ∧
    (mapGet? m k = none →
      (stabilizerGetFrame m k).2 = mapSet m k TransformParam.defaultVal ∧
      ∀ j, j ≠ k → mapGet? (stabilizerGetFrame m k).2 j = mapGet? m j) := by
  constructor
  · intro t ht
    unfold stabilizerGetFrame
    rw [ht]
  · intro hnone
    unfold stabilizerGetFrame
    rw [hnone]
    exact ⟨rfl, fun j hj => mapGet?_mapSet_ne m k j _ hj⟩

/-- Witness for C10's amended statement at concrete inputs: a present index
leaves the map untouched; an absent index preserves the existing entry. -/
theorem c10_witness :
    stabilizerGetFrame [(1, ⟨7, 8, 9⟩)] 1 = (⟨7, 8, 9⟩, [(1, ⟨7, 8, 9⟩)]) ∧
    mapGet? (stabilizerGetFrame [(1, ⟨7, 8, 9⟩)] 0).2 1 = some ⟨7, 8, 9⟩ := by
  have h1 := c10_amended_readonly_when_present [(1, ⟨7, 8, 9⟩)] 1
  have h0 := c10_amended_readonly_when_present [(1, ⟨7, 8, 9⟩)] 0
  refine ⟨h1.1 ⟨7, 8, 9⟩ (by rfl), ?_⟩
  rw [(h0.2 (by rfl)).2 1 (by decide)]
  rfl
